import Mathlib

/-!
# Verification of the inspection-reconciliation engine (src/app.py)

Shallow embedding of the pure processing core of `src/app.py`:
plate-key normalization (`normalize_plate`), tolerant date resolution
(`try_parse_date`), compliance scoring (`compliance_label`), staleness
classification (`traffic_light`), latest-record-per-key selection
(`df_last`, lines 354-360) and the registry/inspection left join with its
derived columns (lines 376-381).

Modelling conventions:
* a spreadsheet cell is a `Value`: missing (`NaN`/`NA`), a string, or an
  integer scalar;
* calendar dates and timestamps are integers counting whole days since
  the spreadsheet epoch 1899-12-30 (the `origin` used by the code), so a
  numeric date serial `n` denotes exactly the day-value `n`; fractional
  (sub-day) serials are outside the day-granularity model;
* pandas `NaT`/missing dates are `Option Int` with `none` for `NaT`;
* all machine floats that the claims touch are exact decimals, modelled
  as an integer mantissa together with a power-of-ten scale.
-/

namespace CtrlInsp

/-- A raw spreadsheet scalar: missing (`NaN` / `pd.NA`), text, or an
integer number.  `pd.isna` is true exactly on `na`. -/
inductive Value where
  | na : Value
  | str (s : String) : Value
  | num (n : Int) : Value
deriving DecidableEq

/-- `pd.isna` on a scalar. -/
def Value.isNA : Value → Bool
  | .na => true
  | _ => false

/-- Python `str(x)` on the scalars we model (never consulted on `na` by
the code, which tests `pd.isna` first; Python would give `"nan"`). -/
def Value.toText : Value → String
  | .na => "nan"
  | .str s => s
  | .num n => toString n

/-- The whitespace characters stripped by Python `str.strip` (ASCII
subset; exotic Unicode spaces are invisible modulo the later filters). -/
def isPySpace (c : Char) : Bool :=
  c.toNat == 32 || c.toNat == 9 || c.toNat == 10 ||
  c.toNat == 11 || c.toNat == 12 || c.toNat == 13

/-- Python `str.strip`: drop leading and trailing whitespace. -/
def pyStrip (l : List Char) : List Char :=
  ((l.dropWhile isPySpace).reverse.dropWhile isPySpace).reverse

/-- ASCII uppercase letter (the regex class `A-Z`). -/
def isUpperAZ (c : Char) : Bool := 65 ≤ c.toNat && c.toNat ≤ 90

/-- ASCII digit (the regex class `0-9`). -/
def isDigit09 (c : Char) : Bool := 48 ≤ c.toNat && c.toNat ≤ 57

/-- A character kept by `re.sub(r"[^A-Z0-9]", "", s)`. -/
def keepChar (c : Char) : Bool := isUpperAZ c || isDigit09 c

/-- Python `str.upper` on one character (ASCII case mapping; non-ASCII
case mapping is invisible modulo the `[^A-Z0-9]` filter that follows). -/
def pyToUpper (c : Char) : Char :=
  if 97 ≤ c.toNat && c.toNat ≤ 122 then Char.ofNat (c.toNat - 32) else c

/-- `normalize_plate` (src/app.py lines 132-137): missing becomes `""`;
otherwise `str(x).strip().upper()` followed by deleting every character
outside `[A-Z0-9]`. -/
def normalize_plate (x : Value) : String :=
  match x with
  | .na => ""
  | v => String.mk (((pyStrip v.toText.toList).map pyToUpper).filter keepChar)

/-- `traffic_light` (src/app.py lines 148-155).  `days` is the elapsed-day
count, `none` for a missing value.  The four returned strings are the
code's literal tier labels ("OK", "Alert", "Critical",
"No inspection on record" in the spec's terminology). -/
def traffic_light (days : Option Int) (green_max yellow_max : Int) : String :=
  match days with
  | none => "⚫ Sin inspección"
  | some d =>
    if d ≤ green_max then "🟢 OK"
    else if d ≤ yellow_max then "🟡 Alerta"
    else "🔴 Crítico"

/-- Digit run to its value, most significant first. -/
def digitsVal (l : List Char) : Nat :=
  l.foldl (fun n c => n * 10 + (c.toNat - 48)) 0

/-- `pd.to_numeric(·, errors="coerce")` on a piece of text, restricted to
the plain decimal forms the pipeline meets (optional sign, digits, an
optional decimal point; no exponent notation).  The exact value is the
rational `mantissa / 10 ^ scale`, returned as the pair
`(mantissa, scale)`; `none` is `NaN` (unparseable). -/
def parseDecChars (cs : List Char) : Option (Int × Nat) :=
  let cs := pyStrip cs
  let signed : Int × List Char :=
    match cs with
    | '-' :: rest => (-1, rest)
    | '+' :: rest => (1, rest)
    | _ => (1, cs)
  let sign := signed.1
  let body := signed.2
  let intPart := body.takeWhile isDigit09
  let rest := body.dropWhile isDigit09
  match rest with
  | [] =>
    if intPart.isEmpty then none
    else some (sign * (digitsVal intPart : Int), 0)
  | '.' :: frac =>
    if frac.all isDigit09 then
      if intPart.isEmpty && frac.isEmpty then none
      else some (sign * (digitsVal (intPart ++ frac) : Int), frac.length)
    else none
  | _ => none

/-- The comparison `v >= 100` on the exact value `m / 10 ^ k`. -/
def decGe100 (m : Int) (k : Nat) : Prop := 100 * (10 : Int) ^ k ≤ m

instance (m : Int) (k : Nat) : Decidable (decGe100 m k) := by
  unfold decGe100; infer_instance

/-- `compliance_label` (src/app.py lines 157-169): `pd.NA` for a missing
value; otherwise `str(x).strip().replace("%", "")` (which deletes
**every** percent sign) is fed to `pd.to_numeric(·, errors="coerce")`;
an unparseable remainder gives `pd.NA`, a value `v` gives `"Cumple"`
when `v >= 100` and `"No Cumple"` otherwise. -/
def compliance_label (x : Value) : Option String :=
  match x with
  | .na => none
  | v =>
    let cleaned := (pyStrip v.toText.toList).filter (· ≠ '%')
    match parseDecChars cleaned with
    | none => none
    | some mk =>
      if decGe100 mk.1 mk.2 then some "Cumple" else some "No Cumple"

/-! ### Calendar arithmetic

Dates are day counts since 1899-12-30 (the spreadsheet serial origin
used at src/app.py line 144).  `daysFromCivil` is the standard proleptic
Gregorian day-count algorithm, anchored at 1970-01-01; 1899-12-30 is
25569 days before 1970-01-01. -/

/-- Days from 1970-01-01 to the civil date `y-m-d` (proleptic Gregorian). -/
def daysFromCivil (y : Int) (m d : Nat) : Int :=
  let yy : Int := if m ≤ 2 then y - 1 else y
  let era : Int := Int.fdiv yy 400
  let yoe : Int := yy - era * 400
  let mShift : Int := if 2 < m then (m : Int) - 3 else (m : Int) + 9
  let doy : Int := (153 * mShift + 2) / 5 + (d : Int) - 1
  let doe : Int := yoe * 365 + yoe / 4 - yoe / 100 + doy
  era * 146097 + doe - 719468

/-- Day serial (days since 1899-12-30) of the civil date `y-m-d`. -/
def serialOfYMD (y : Int) (m d : Nat) : Int :=
  daysFromCivil y m d + 25569

/-- Gregorian leap year. -/
def isLeap (y : Int) : Bool :=
  (y % 4 == 0 && y % 100 != 0) || y % 400 == 0

/-- Length of month `m` of year `y`. -/
def daysInMonth (y : Int) (m : Nat) : Nat :=
  if m == 2 then (if isLeap y then 29 else 28)
  else if m == 4 || m == 6 || m == 9 || m == 11 then 30
  else 31

/-- A well-formed civil date. -/
def validYMD (y : Int) (m d : Nat) : Bool :=
  1 ≤ m && m ≤ 12 && 1 ≤ d && d ≤ daysInMonth y m

/-- Smallest midnight day-serial representable as a pandas `Timestamp`
(`Timestamp.min` is 1677-09-21 00:12, so 1677-09-22 is the first whole
midnight). -/
def serialMin : Int := serialOfYMD 1677 9 22

/-- Largest midnight day-serial representable as a pandas `Timestamp`
(`Timestamp.max` is 2262-04-11 23:47). -/
def serialMax : Int := serialOfYMD 2262 4 11

/-- A serial within `Timestamp` range; outside it, `errors="coerce"`
turns the value into `NaT`. -/
def serialInRange (n : Int) : Bool := serialMin ≤ n && n ≤ serialMax

/-! ### The two-pass date resolver (src/app.py lines 139-146) -/

/-- A run of one or more ASCII digits. -/
def allDigits (l : List Char) : Bool := !l.isEmpty && l.all isDigit09

/-- Split a character list at every occurrence of `sep` (the fields of
`"03/04/2024"` are `["03", "04", "2024"]`). -/
def splitOnChar (sep : Char) : List Char → List (List Char)
  | [] => [[]]
  | c :: rest =>
    match splitOnChar sep rest, c == sep with
    | r, true => [] :: r
    | [], false => [[c]]
    | h :: t, false => (c :: h) :: t

/-- Build the day serial from three numeric date fields, checking civil
validity and `Timestamp` range (`errors="coerce"` gives `NaT`, `none`,
on either failure). -/
def buildDate (y : Int) (m d : Nat) : Option Int :=
  if validYMD y m d then
    let s := serialOfYMD y m d
    if serialInRange s then some s else none
  else none

/-- Day-first reading of three slash- or dash-separated numeric fields,
as `pd.to_datetime(·, dayfirst=True)` reads them: a four-digit leading
field is a year (ISO order year-month-day); otherwise the order is
day-month-year with a four-digit year. -/
def parseFields (a b c : List Char) : Option Int :=
  if allDigits a && allDigits b && allDigits c then
    if a.length == 4 then
      buildDate (digitsVal a : Int) (digitsVal b) (digitsVal c)
    else if c.length == 4 then
      buildDate (digitsVal c : Int) (digitsVal b) (digitsVal a)
    else none
  else none

/-- Pass 1 of the resolver: `pd.to_datetime(·, errors="coerce",
dayfirst=True)` on one cell, modelled for the numeric day/month/year
textual forms the two tables contain (separator `/` or `-`).  Numbers
and missing values coerce to `NaT` here (under the string date format
the column infers) and fall through to the serial pass; textual formats
beyond these are outside the model. -/
def parseTextDayfirst (v : Value) : Option Int :=
  match v with
  | .str s =>
    let t := pyStrip s.toList
    match splitOnChar '/' t with
    | [a, b, c] => parseFields a b c
    | _ =>
      match splitOnChar '-' t with
      | [a, b, c] => parseFields a b c
      | _ => none
  | _ => none

/-- `pd.to_numeric(·, errors="coerce")` on the cells that reach pass 2,
at day granularity: an integer scalar is itself; text parses as an
integer; anything else is `NaN` (`none`). -/
def toNumericDay (v : Value) : Option Int :=
  match v with
  | .num n => some n
  | .str s =>
    match parseDecChars s.toList with
    | some mk => if mk.2 == 0 then some mk.1 else none
    | none => none
  | .na => none

/-- Pass 2 of the resolver: `pd.to_datetime(numeric, unit="D",
origin="1899-12-30", errors="coerce")` — the serial `n` is the day
`n` days after 1899-12-30, i.e. the day-value `n` itself, `NaT` when
non-numeric or outside `Timestamp` range. -/
def serialPass (v : Value) : Option Int :=
  match toNumericDay v with
  | some n => if serialInRange n then some n else none
  | none => none

/-- `try_parse_date` (src/app.py lines 139-146) on one cell: pass 1
(day-first text) wins when it resolves; exactly the cells it leaves as
`NaT` (`mask`) are retried as spreadsheet serials; both passes failing
leaves `NaT` (`none`).  Total — `errors="coerce"` never raises. -/
def try_parse_date (v : Value) : Option Int :=
  match parseTextDayfirst v with
  | some d => some d
  | none => serialPass v

/-! ### Tables: inspection rows, the latest-record selector -/

/-- One inspection row as it stands right before the latest-record
selection (src/app.py lines 349-351): the derived key `plate_norm`, the
resolved date `Fecha_dt`, and the three raw compliance-score cells. -/
structure InspRow where
  plate_norm : String
  fecha_dt : Option Int
  cumplExt : Value
  cumplInt : Value
  cumplCond : Value
deriving DecidableEq

/-- The rows kept by lines 355-356: non-empty key and resolvable date. -/
def goodRow (r : InspRow) : Bool := r.plate_norm ≠ "" && r.fecha_dt.isSome

/-- `NaT`-last descending date order used by
`sort_values(..., ascending=[True, False])` on the date component. -/
def dateDescLe : Option Int → Option Int → Prop
  | some x, some y => y ≤ x
  | none, none => True
  | none, some _ => False
  | some _, none => True

instance : (a b : Option Int) → Decidable (dateDescLe a b)
  | some x, some y => inferInstanceAs (Decidable (y ≤ x))
  | none, none => inferInstanceAs (Decidable True)
  | none, some _ => inferInstanceAs (Decidable False)
  | some _, none => inferInstanceAs (Decidable True)

/-- Code-point lexicographic comparison of character lists — the string
order Python and pandas sort plate keys by. -/
def charListLt : List Char → List Char → Bool
  | _, [] => false
  | [], _ :: _ => true
  | a :: as, b :: bs =>
    if a.toNat < b.toNat then true
    else if b.toNat < a.toNat then false
    else charListLt as bs

/-- Strict code-point order on strings. -/
def strLt (s t : String) : Prop := charListLt s.toList t.toList = true

instance (s t : String) : Decidable (strLt s t) :=
  inferInstanceAs (Decidable (charListLt s.toList t.toList = true))

/-- The lexicographic order of
`sort_values(["plate_norm", "Fecha_dt"], ascending=[True, False])`:
key ascending, then resolved date descending. -/
def lexLe (a b : InspRow) : Prop :=
  strLt a.plate_norm b.plate_norm ∨
    (a.plate_norm = b.plate_norm ∧ dateDescLe a.fecha_dt b.fecha_dt)

instance : DecidableRel lexLe := fun a b =>
  inferInstanceAs (Decidable (strLt a.plate_norm b.plate_norm ∨
    (a.plate_norm = b.plate_norm ∧ dateDescLe a.fecha_dt b.fecha_dt)))

instance : IsTotal InspRow lexLe where
  total := by
    intro a b
    have tot : ∀ x y : Option Int, dateDescLe x y ∨ dateDescLe y x := by
      intro x y
      cases x <;> cases y <;> simp [dateDescLe] <;> omega
    have trichot : ∀ x y : List Char, charListLt x y = false →
        charListLt y x = false → x = y := by
      intro x
      induction x with
      | nil =>
        intro y h1 _
        cases y with
        | nil => rfl
        | cons c cs => exact absurd h1 (by simp [charListLt])
      | cons xh xt ih =>
        intro y h1 h2
        cases y with
        | nil => exact absurd h2 (by simp [charListLt])
        | cons yh yt =>
          simp only [charListLt] at h1 h2
          split_ifs at h1 h2 <;>
            first
              | exact Bool.noConfusion h1
              | exact Bool.noConfusion h2
              | (have hnat : xh.toNat = yh.toNat := by omega
                 have hh : xh = yh := Char.ext (UInt32.ext hnat)
                 rw [hh, ih yt h1 h2])
    by_cases hab : strLt a.plate_norm b.plate_norm
    · exact Or.inl (Or.inl hab)
    · by_cases hba : strLt b.plate_norm a.plate_norm
      · exact Or.inr (Or.inl hba)
      · have heq : a.plate_norm = b.plate_norm :=
          String.toList_inj.mp
            (trichot _ _ (Bool.eq_false_iff.mpr hab) (Bool.eq_false_iff.mpr hba))
        rcases tot a.fecha_dt b.fecha_dt with hd | hd
        · exact Or.inl (Or.inr ⟨heq, hd⟩)
        · exact Or.inr (Or.inr ⟨heq.symm, hd⟩)

instance : IsTrans InspRow lexLe where
  trans := by
    intro a b c h1 h2
    have hdt : ∀ x y z : Option Int,
        dateDescLe x y → dateDescLe y z → dateDescLe x z := by
      intro x y z hxy hyz
      cases x <;> cases y <;> cases z <;> simp_all [dateDescLe] <;> omega
    have hlt : ∀ x : List Char, ∀ y z : List Char, charListLt x y = true →
        charListLt y z = true → charListLt x z = true := by
      intro x
      induction x with
      | nil =>
        intro y z h1 h2
        cases z with
        | nil => cases y <;> simp [charListLt] at h2
        | cons zh zt => simp [charListLt]
      | cons xh xt ih =>
        intro y z h1 h2
        cases y with
        | nil => simp [charListLt] at h1
        | cons yh yt =>
          cases z with
          | nil => simp [charListLt] at h2
          | cons zh zt =>
            simp only [charListLt] at h1 h2 ⊢
            split_ifs at h1 h2 ⊢ <;>
              first
                | rfl
                | exact Bool.noConfusion h1
                | exact Bool.noConfusion h2
                | exact ih yt zt h1 h2
                | (exfalso; omega)
    have hstr : ∀ s t u : String, strLt s t → strLt t u → strLt s u :=
      fun s t u hs ht => hlt s.toList t.toList u.toList hs ht
    rcases h1 with h1 | ⟨e1, d1⟩
    · rcases h2 with h2 | ⟨e2, _⟩
      · exact Or.inl (hstr _ _ _ h1 h2)
      · exact Or.inl (e2 ▸ h1)
    · rcases h2 with h2 | ⟨e2, d2⟩
      · exact Or.inl (e1 ▸ h2)
      · exact Or.inr ⟨e1.trans e2, hdt _ _ _ d1 d2⟩

/-- The grouping predicate of `groupby("plate_norm")`: membership in the
group of key `k`. -/
def pk (k : String) : InspRow → Bool := fun r => r.plate_norm == k

/-- First non-null cell of a column slice — the per-column aggregation
performed by pandas `GroupBy.first()` (which skips nulls). -/
def firstNonNA (vs : List Value) : Value :=
  (vs.find? (fun v => !v.isNA)).getD .na

/-- First non-`NaT` date of a column slice (`GroupBy.first()` on the
date column). -/
def firstDate (ds : List (Option Int)) : Option Int :=
  (ds.find? Option.isSome).getD none

/-- The single output row `GroupBy.first()` builds for group key `k`
from the group's rows `g` (already in sorted order): per column, the
first non-null value. -/
def aggFirst (k : String) (g : List InspRow) : InspRow :=
  { plate_norm := k
    fecha_dt := firstDate (g.map (·.fecha_dt))
    cumplExt := firstNonNA (g.map (·.cumplExt))
    cumplInt := firstNonNA (g.map (·.cumplInt))
    cumplCond := firstNonNA (g.map (·.cumplCond)) }

/-- The filtered table in the stable sorted order of lines 355-357:
pandas multi-column `sort_values` is a stable lexsort, and a stable sort
with respect to a total preorder has a unique result, so the stable
insertion sort below produces exactly it. -/
def sortedGood (rows : List InspRow) : List InspRow :=
  (rows.filter goodRow).insertionSort lexLe

/-- `df_last` (src/app.py lines 354-360): keep rows with a non-empty key
and a resolved date, sort stably by (key asc, date desc), then group by
key (pandas groups by value, one group per distinct key, keys emitted in
sorted order up to first occurrence) and take `GroupBy.first()` of every
group. -/
def df_last (rows : List InspRow) : List InspRow :=
  (((sortedGood rows).map (·.plate_norm)).dedup).map
    fun k => aggFirst k ((sortedGood rows).filter (pk k))

/-! ### Labelling and the reconciliation left join (src/app.py 362-381) -/

/-- A latest-inspection row after the three compliance columns are
rewritten by `compliance_label` (lines 363-364) and the table is cut to
its five output columns (lines 366-374). -/
structure LastRow where
  plate_norm : String
  ultimaFecha : Option Int
  cumplExt : Option String
  cumplInt : Option String
  cumplCond : Option String
deriving DecidableEq

/-- Lines 362-374: label the three compliance columns of one selected
row and keep the five exported columns. -/
def labelRow (r : InspRow) : LastRow :=
  { plate_norm := r.plate_norm
    ultimaFecha := r.fecha_dt
    cumplExt := compliance_label r.cumplExt
    cumplInt := compliance_label r.cumplInt
    cumplCond := compliance_label r.cumplCond }

/-- The joined right-hand table: `df_last` after labelling. -/
def lastTable (rows : List InspRow) : List LastRow :=
  (df_last rows).map labelRow

/-- One registry row (the `REG PLATE` cell and its derived key; the
descriptive columns are carried through opaquely and play no part in
any claim). -/
structure RegRow where
  reg_plate : Value
  plate_norm : String
deriving DecidableEq

/-- One row of the final report table (lines 376-381). -/
structure ReportRow where
  plate_norm : String
  ultimaFecha : Option Int
  dias : Option Int
  inspeccionado : Bool
  semaforo : String
  cumplExt : Option String
  cumplInt : Option String
  cumplCond : Option String
deriving DecidableEq

/-- The left join plus derived columns for one registry row
(lines 376-381): the unique `df_last` match by key (its keys are
pairwise distinct, so pandas `merge(..., how="left")` contributes at
most one row); `Inspeccionado` is date-presence, `Días desde última
inspección` is `today - date` (whole days, `today` already at
midnight), `Semáforo` is `traffic_light` of that. -/
def reconcileRow (today green_max yellow_max : Int) (lasts : List LastRow)
    (p : RegRow) : ReportRow :=
  match lasts.find? (fun l => l.plate_norm == p.plate_norm) with
  | some l =>
    let dias := l.ultimaFecha.map (fun f => today - f)
    { plate_norm := p.plate_norm
      ultimaFecha := l.ultimaFecha
      dias := dias
      inspeccionado := l.ultimaFecha.isSome
      semaforo := traffic_light dias green_max yellow_max
      cumplExt := l.cumplExt
      cumplInt := l.cumplInt
      cumplCond := l.cumplCond }
  | none =>
    { plate_norm := p.plate_norm
      ultimaFecha := none
      dias := none
      inspeccionado := false
      semaforo := traffic_light none green_max yellow_max
      cumplExt := none
      cumplInt := none
      cumplCond := none }

/-- `df = df_pat.merge(df_last, on="plate_norm", how="left")` plus the
three derived columns, one output row per registry row. -/
def reconcile (today green_max yellow_max : Int) (regs : List RegRow)
    (lasts : List LastRow) : List ReportRow :=
  regs.map (reconcileRow today green_max yellow_max lasts)

/-- The threshold clamp of src/app.py lines 341-343: when
`yellow_max < green_max` the run continues with `yellow_max` raised to
`green_max`. -/
def clampYellow (green_max yellow_max : Int) : Int :=
  if yellow_max < green_max then green_max else yellow_max

/-- The caller-visible `st.warning` notice of line 342, emitted exactly
when the clamp fires. -/
def threshold_notice (green_max yellow_max : Int) : Bool :=
  yellow_max < green_max

/-- Lines 341-381 end to end: clamp the thresholds, select and label the
latest inspections, and left-join the registry against them. -/
def runReport (today green_max yellow_max : Int) (regs : List RegRow)
    (insp : List InspRow) : List ReportRow :=
  reconcile today green_max (clampYellow green_max yellow_max) regs
    (lastTable insp)

/-- The spec's literal reading of the compliance cleaning step ("strip a
trailing percent sign if present"): remove one percent sign at the end
only, then parse.  Stated solely for comparison with `compliance_label`,
whose `str.replace("%", "")` removes every percent sign. -/
def compliance_label_trailing (x : Value) : Option String :=
  match x with
  | .na => none
  | v =>
    let s := pyStrip v.toText.toList
    let cleaned :=
      match s.reverse with
      | '%' :: rest => rest.reverse
      | _ => s
    match parseDecChars cleaned with
    | none => none
    | some mk =>
      if decGe100 mk.1 mk.2 then some "Cumple" else some "No Cumple"

end CtrlInsp

namespace CtrlInsp

/-! ## Claims -/

/-- C2: for non-null elapsed days `d` and thresholds with
`green_max ≤ yellow_max`, the staleness classifier returns the OK tier
iff `d ≤ green_max`, the Alert tier iff `green_max < d ≤ yellow_max`,
and the Critical tier iff `d > yellow_max`; a null value returns the
no-inspection tier.  With `green_max = 7`, `yellow_max = 30`: 7 is OK,
8 and 30 are Alert, 31 is Critical. -/
theorem C2_staleness_classifier :
    (∀ green_max yellow_max : Int, green_max ≤ yellow_max →
      (∀ d : Int,
        (traffic_light (some d) green_max yellow_max = "🟢 OK" ↔
          d ≤ green_max) ∧
        (traffic_light (some d) green_max yellow_max = "🟡 Alerta" ↔
          green_max < d ∧ d ≤ yellow_max) ∧
        (traffic_light (some d) green_max yellow_max = "🔴 Crítico" ↔
          yellow_max < d)) ∧
      traffic_light none green_max yellow_max = "⚫ Sin inspección") ∧
    traffic_light (some 7) 7 30 = "🟢 OK" ∧
    traffic_light (some 8) 7 30 = "🟡 Alerta" ∧
    traffic_light (some 30) 7 30 = "🟡 Alerta" ∧
    traffic_light (some 31) 7 30 = "🔴 Crítico" ∧
    traffic_light none 7 30 = "⚫ Sin inspección" := by
  refine ⟨fun g y hgy => ⟨fun d => ?_, rfl⟩, rfl, rfl, rfl, rfl, rfl⟩
  simp only [traffic_light]
  split_ifs with h1 h2
  · exact ⟨⟨fun _ => h1, fun _ => rfl⟩,
      ⟨fun hs => absurd hs (by decide), fun hd => absurd hd (by omega)⟩,
      ⟨fun hs => absurd hs (by decide), fun hd => absurd hd (by omega)⟩⟩
  · exact ⟨⟨fun hs => absurd hs (by decide), fun hd => absurd hd (by omega)⟩,
      ⟨fun _ => ⟨by omega, h2⟩, fun _ => rfl⟩,
      ⟨fun hs => absurd hs (by decide), fun hd => absurd hd (by omega)⟩⟩
  · exact ⟨⟨fun hs => absurd hs (by decide), fun hd => absurd hd (by omega)⟩,
      ⟨fun hs => absurd hs (by decide), fun hd => absurd hd (by omega)⟩,
      ⟨fun _ => by omega, fun _ => rfl⟩⟩

/-- Witness for C2 at `green_max = 7`, `yellow_max = 30`, `d = 8`. -/
theorem C2_staleness_classifier_witness :
    traffic_light (some 8) 7 30 = "🟡 Alerta" :=
  (((C2_staleness_classifier.1 7 30 (by omega)).1 8).2.1).mpr
    ⟨by omega, by omega⟩

/-- C3: the date resolver first attempts day-first textual parsing
(`"03/04/2024"` resolves to 2024-04-03); every value that pass leaves
unresolved is retried as a spreadsheet serial counting days since
1899-12-30 (numeric `45000` resolves to the day 45000 days after the
epoch, which is the day-value `45000` of the model); a value failing
both passes resolves to `none`, and the resolver is a total function
(`errors="coerce"` — it never raises). -/
theorem C3_date_resolver :
    (∀ v : Value,
      (∀ d : Int, parseTextDayfirst v = some d → try_parse_date v = some d) ∧
      (parseTextDayfirst v = none → try_parse_date v = serialPass v)) ∧
    try_parse_date (.str "03/04/2024") = some (serialOfYMD 2024 4 3) ∧
    parseTextDayfirst (.num 45000) = none ∧
    try_parse_date (.num 45000) = some 45000 ∧
    try_parse_date (.str "notadate") = none := by
  refine ⟨fun v => ⟨fun d h => ?_, fun h => ?_⟩, rfl, rfl, rfl, rfl⟩
  · simp [try_parse_date, h]
  · simp [try_parse_date, h]

/-- Witness for C3: the fallback clause applied to the numeric serial
`45000`, whose textual pass fails. -/
theorem C3_date_resolver_witness :
    try_parse_date (.num 45000) = serialPass (.num 45000) :=
  (C3_date_resolver.1 (.num 45000)).2 rfl

end CtrlInsp

namespace CtrlInsp

/-- C9: when the caller supplies `yellow_max < green_max`, the run
continues with `yellow_max` raised to `green_max` and an emitted
caller-visible notice; otherwise the thresholds are used unchanged.  The
full pipeline `runReport` performs every staleness classification with
the clamped yellow threshold, which always satisfies
`green_max ≤ yellow_max`. -/
theorem C9_threshold_clamp :
    ∀ (today green_max yellow_max : Int) (regs : List RegRow)
      (insp : List InspRow),
      green_max ≤ clampYellow green_max yellow_max ∧
      (threshold_notice green_max yellow_max = true ↔
        yellow_max < green_max) ∧
      (yellow_max < green_max → clampYellow green_max yellow_max = green_max) ∧
      (green_max ≤ yellow_max → clampYellow green_max yellow_max = yellow_max) ∧
      runReport today green_max yellow_max regs insp =
        reconcile today green_max (clampYellow green_max yellow_max) regs
          (lastTable insp) := by
  intro today g y regs insp
  refine ⟨?_, ?_, ?_, ?_, rfl⟩
  · unfold clampYellow; split_ifs <;> omega
  · unfold threshold_notice; simp
  · intro h; unfold clampYellow; rw [if_pos h]
  · intro h; unfold clampYellow; rw [if_neg (by omega)]

/-- Witness for C9 at `green_max = 7`, `yellow_max = 3`. -/
theorem C9_threshold_clamp_witness :
    clampYellow 7 3 = 7 ∧ threshold_notice 7 3 = true :=
  ⟨(C9_threshold_clamp 0 7 3 [] []).2.2.1 (by omega),
   (C9_threshold_clamp 0 7 3 [] []).2.1.mpr (by omega)⟩

/-- C10: a registry row joined to a last-inspection date strictly after
the reference day gets a negative elapsed-day count, and with
`0 ≤ green_max` its staleness tier is the OK tier — a future-dated
inspection is never Alert or Critical. -/
theorem C10_future_inspection_ok :
    ∀ (today green_max yellow_max d : Int) (lasts : List LastRow)
      (l : LastRow) (p : RegRow),
      lasts.find? (fun x => x.plate_norm == p.plate_norm) = some l →
      l.ultimaFecha = some d →
      today < d →
      0 ≤ green_max →
      (reconcileRow today green_max yellow_max lasts p).dias =
        some (today - d) ∧
      today - d < 0 ∧
      (reconcileRow today green_max yellow_max lasts p).semaforo = "🟢 OK" := by
  intro today g y d lasts l p hfind hdate hlt hg
  unfold reconcileRow
  rw [hfind]
  refine ⟨?_, by omega, ?_⟩
  · show Option.map (fun f => today - f) l.ultimaFecha = some (today - d)
    rw [hdate]
    rfl
  · show traffic_light (Option.map (fun f => today - f) l.ultimaFecha) g y =
      "🟢 OK"
    rw [hdate]
    show (if today - d ≤ g then "🟢 OK"
      else if today - d ≤ y then "🟡 Alerta" else "🔴 Crítico") = "🟢 OK"
    rw [if_pos (by omega)]

/-- Witness for C10: registry key "A" joined to a last inspection five
days after the reference day. -/
theorem C10_future_inspection_ok_witness :
    (reconcileRow 0 7 30 [⟨"A", some 5, none, none, none⟩]
      ⟨Value.str "A", "A"⟩).dias = some (0 - 5) ∧
    (0 : Int) - 5 < 0 ∧
    (reconcileRow 0 7 30 [⟨"A", some 5, none, none, none⟩]
      ⟨Value.str "A", "A"⟩).semaforo = "🟢 OK" :=
  C10_future_inspection_ok 0 7 30 5 [⟨"A", some 5, none, none, none⟩]
    ⟨"A", some 5, none, none, none⟩ ⟨Value.str "A", "A"⟩ rfl rfl
    (by omega) (by omega)

/-- C4: in every row of the reconciliation left join, the inspected flag
is true iff the elapsed-day count is non-null iff the last-inspection
date is non-null; a registry row whose key matches no latest-inspection
row gets null in every derived inspection field and a false inspected
flag. -/
theorem C4_join_invariants :
    ∀ (today green_max yellow_max : Int) (lasts : List LastRow)
      (regs : List RegRow),
      (∀ r ∈ reconcile today green_max yellow_max regs lasts,
        (r.inspeccionado = true ↔ r.dias ≠ none) ∧
        (r.dias ≠ none ↔ r.ultimaFecha ≠ none)) ∧
      (∀ p : RegRow, (∀ l ∈ lasts, l.plate_norm ≠ p.plate_norm) →
        (reconcileRow today green_max yellow_max lasts p).ultimaFecha = none ∧
        (reconcileRow today green_max yellow_max lasts p).dias = none ∧
        (reconcileRow today green_max yellow_max lasts p).cumplExt = none ∧
        (reconcileRow today green_max yellow_max lasts p).cumplInt = none ∧
        (reconcileRow today green_max yellow_max lasts p).cumplCond = none ∧
        (reconcileRow today green_max yellow_max lasts p).inspeccionado =
          false) := by
  intro today g y lasts regs
  constructor
  · intro r hr
    obtain ⟨p, _, rfl⟩ := List.mem_map.mp hr
    unfold reconcileRow
    cases hfind : lasts.find? (fun l => l.plate_norm == p.plate_norm) with
    | none => simp
    | some l =>
      cases hl : l.ultimaFecha with
      | none => simp [hl]
      | some f => simp [hl]
  · intro p hp
    unfold reconcileRow
    have hfind : lasts.find? (fun l => l.plate_norm == p.plate_norm) = none := by
      rw [List.find?_eq_none]
      intro l hl
      simpa using hp l hl
    rw [hfind]
    exact ⟨rfl, rfl, rfl, rfl, rfl, rfl⟩

/-- Witness for C4: one matched and one unmatched registry row against a
one-row latest-inspection table. -/
theorem C4_join_invariants_witness :
    ((reconcileRow 10 7 30 [⟨"A", some 5, some "Cumple", none, none⟩]
        ⟨Value.str "B", "B"⟩).ultimaFecha = none ∧
      (reconcileRow 10 7 30 [⟨"A", some 5, some "Cumple", none, none⟩]
        ⟨Value.str "B", "B"⟩).dias = none ∧
      (reconcileRow 10 7 30 [⟨"A", some 5, some "Cumple", none, none⟩]
        ⟨Value.str "B", "B"⟩).cumplExt = none ∧
      (reconcileRow 10 7 30 [⟨"A", some 5, some "Cumple", none, none⟩]
        ⟨Value.str "B", "B"⟩).cumplInt = none ∧
      (reconcileRow 10 7 30 [⟨"A", some 5, some "Cumple", none, none⟩]
        ⟨Value.str "B", "B"⟩).cumplCond = none ∧
      (reconcileRow 10 7 30 [⟨"A", some 5, some "Cumple", none, none⟩]
        ⟨Value.str "B", "B"⟩).inspeccionado = false) :=
  (C4_join_invariants 10 7 30 [⟨"A", some 5, some "Cumple", none, none⟩]
      [⟨Value.str "B", "B"⟩]).2
    ⟨Value.str "B", "B"⟩ (by intro l hl; simp at hl; simp [hl])

end CtrlInsp

namespace CtrlInsp

/-- On a non-missing scalar, `compliance_label` is the parse-then-compare
on the percent-stripped text. -/
theorem compliance_label_eq (v : Value) (h : v.isNA = false) :
    compliance_label v =
      match parseDecChars ((pyStrip v.toText.toList).filter (· ≠ '%')) with
      | none => none
      | some mk =>
        if decGe100 mk.1 mk.2 then some "Cumple" else some "No Cumple" := by
  cases v with
  | na => simp [Value.isNA] at h
  | str s => rfl
  | num n => rfl

/-- C5 counterexample: the code removes **every** percent sign
(`str.replace("%", "")`), not only a trailing one.  On `"%100"` the code
answers `"Cumple"`, while the claimed trailing-only rule
(`compliance_label_trailing`) leaves `"%100"` unparseable and answers
absent. -/
theorem C5_compliance_classifier_cex :
    compliance_label (Value.str "%100") = some "Cumple" ∧
    compliance_label_trailing (Value.str "%100") = none :=
  ⟨by decide, by decide⟩

/-- C5 (amended): the classifier strips **every** percent sign (after
trimming surrounding whitespace) and parses the remainder as a number;
a missing or unparseable input gives absent, a parsed value `m / 10 ^ k`
gives `"Cumple"` when it is `≥ 100` and `"No Cumple"` when `< 100`;
`"100%"` is Cumple, `"99.9"` is No Cumple, `""` and missing are absent. -/
theorem C5_compliance_classifier :
    (∀ x : Value, x.isNA = true → compliance_label x = none) ∧
    (∀ (v : Value) (m : Int) (k : Nat), v.isNA = false →
      parseDecChars ((pyStrip v.toText.toList).filter (· ≠ '%')) =
        some (m, k) →
      (100 * (10 : Int) ^ k ≤ m → compliance_label v = some "Cumple") ∧
      (m < 100 * (10 : Int) ^ k → compliance_label v = some "No Cumple")) ∧
    (∀ v : Value, v.isNA = false →
      parseDecChars ((pyStrip v.toText.toList).filter (· ≠ '%')) = none →
      compliance_label v = none) ∧
    compliance_label (.str "100%") = some "Cumple" ∧
    compliance_label (.str "99.9") = some "No Cumple" ∧
    compliance_label (.str "") = none ∧
    compliance_label .na = none := by
  refine ⟨?_, ?_, ?_, by decide, by decide, by decide, rfl⟩
  · intro x hx
    cases x with
    | na => rfl
    | str s => simp [Value.isNA] at hx
    | num n => simp [Value.isNA] at hx
  · intro v m k hv hp
    rw [compliance_label_eq v hv, hp]
    constructor
    · intro hge
      show (if decGe100 m k then some "Cumple" else some "No Cumple") =
        some "Cumple"
      rw [if_pos (show decGe100 m k from hge)]
    · intro hlt
      show (if decGe100 m k then some "Cumple" else some "No Cumple") =
        some "No Cumple"
      rw [if_neg (show ¬ decGe100 m k from not_le.mpr hlt)]
  · intro v hv hp
    rw [compliance_label_eq v hv, hp]

/-- Witness for C5 at the parsed value 99.9 (mantissa 999, scale 1). -/
theorem C5_compliance_classifier_witness :
    compliance_label (Value.str "99.9") = some "No Cumple" :=
  (C5_compliance_classifier.2.1 (Value.str "99.9") 999 1 rfl (by decide)).2
    (by decide)

/-! ### Character-class facts behind the plate normalizer -/

/-- A kept character (`A-Z0-9`) is not whitespace. -/
theorem keepChar_not_space {c : Char} (h : keepChar c = true) :
    isPySpace c = false := by
  simp only [keepChar, isUpperAZ, isDigit09, Bool.or_eq_true, Bool.and_eq_true,
    decide_eq_true_eq] at h
  simp only [isPySpace, Bool.or_eq_false_iff, beq_eq_false_iff_ne, ne_eq]
  omega

/-- A kept character is unchanged by `str.upper`. -/
theorem keepChar_toUpper {c : Char} (h : keepChar c = true) :
    pyToUpper c = c := by
  simp only [keepChar, isUpperAZ, isDigit09, Bool.or_eq_true, Bool.and_eq_true,
    decide_eq_true_eq] at h
  have hn : ¬ ((97 ≤ c.toNat && c.toNat ≤ 122) = true) := by
    simp only [Bool.and_eq_true, decide_eq_true_eq]
    omega
  unfold pyToUpper
  rw [if_neg hn]

/-- Whitespace is unchanged by `str.upper`. -/
theorem space_toUpper {c : Char} (h : isPySpace c = true) : pyToUpper c = c := by
  simp only [isPySpace, Bool.or_eq_true, beq_iff_eq] at h
  have hn : ¬ ((97 ≤ c.toNat && c.toNat ≤ 122) = true) := by
    simp only [Bool.and_eq_true, decide_eq_true_eq]
    omega
  unfold pyToUpper
  rw [if_neg hn]

/-- Whitespace is dropped by the `[^A-Z0-9]` filter. -/
theorem space_not_keep {c : Char} (h : isPySpace c = true) :
    keepChar c = false := by
  simp only [isPySpace, Bool.or_eq_true, beq_iff_eq] at h
  rw [Bool.eq_false_iff]
  intro hk
  simp only [keepChar, isUpperAZ, isDigit09, Bool.or_eq_true, Bool.and_eq_true,
    decide_eq_true_eq] at hk
  omega

/-- `dropWhile` is the identity on a list with no matching element. -/
theorem dropWhile_eq_self_of_none {p : Char → Bool} {l : List Char}
    (h : ∀ c ∈ l, p c = false) : l.dropWhile p = l := by
  cases l with
  | nil => rfl
  | cons c t =>
    rw [List.dropWhile_cons]
    simp [h c (List.mem_cons_self c t)]

/-- Stripping an already-normalized plate changes nothing. -/
theorem pyStrip_eq_self {l : List Char} (h : ∀ c ∈ l, keepChar c = true) :
    pyStrip l = l := by
  unfold pyStrip
  have h1 : l.dropWhile isPySpace = l :=
    dropWhile_eq_self_of_none (fun c hc => keepChar_not_space (h c hc))
  rw [h1]
  have h2 : l.reverse.dropWhile isPySpace = l.reverse :=
    dropWhile_eq_self_of_none
      (fun c hc => keepChar_not_space (h c (List.mem_reverse.mp hc)))
  rw [h2, List.reverse_reverse]

/-- Uppercasing an already-normalized plate changes nothing. -/
theorem map_toUpper_eq_self {l : List Char} (h : ∀ c ∈ l, keepChar c = true) :
    l.map pyToUpper = l := by
  induction l with
  | nil => rfl
  | cons c t ih =>
    rw [List.map_cons, keepChar_toUpper (h c (List.mem_cons_self c t)),
      ih (fun x hx => h x (List.mem_cons_of_mem c hx))]

/-- Leading whitespace removal is invisible modulo the upper-then-filter
pipeline. -/
theorem norm_drop_aux (l : List Char) :
    ((l.dropWhile isPySpace).map pyToUpper).filter keepChar =
      (l.map pyToUpper).filter keepChar := by
  induction l with
  | nil => rfl
  | cons c t ih =>
    by_cases hc : isPySpace c = true
    · have h1 : pyToUpper c = c := space_toUpper hc
      have h2 : keepChar c = false := space_not_keep hc
      simp [List.dropWhile_cons, hc, h1, h2, ih]
    · have hc' : isPySpace c = false := by rw [Bool.eq_false_iff]; exact hc
      simp [List.dropWhile_cons, hc']

/-- `str.strip` is invisible modulo the upper-then-filter pipeline: the
whitespace it removes is removed by the `[^A-Z0-9]` filter anyway. -/
theorem norm_strip_aux (l : List Char) :
    ((pyStrip l).map pyToUpper).filter keepChar =
      (l.map pyToUpper).filter keepChar := by
  unfold pyStrip
  rw [List.map_reverse, List.filter_reverse, norm_drop_aux,
    List.map_reverse, List.filter_reverse, norm_drop_aux,
    List.reverse_reverse]

/-- Every character of a normalized plate is in `[A-Z0-9]`. -/
theorem normalize_plate_chars (x : Value) :
    ∀ c ∈ (normalize_plate x).toList, keepChar c = true := by
  cases x with
  | na => intro c hc; exact absurd hc (List.not_mem_nil c)
  | str s => intro c hc; exact List.of_mem_filter hc
  | num n => intro c hc; exact List.of_mem_filter hc

/-- Normalizing a string made only of `[A-Z0-9]` characters returns it
unchanged. -/
theorem normalize_normalized (s : String)
    (h : ∀ c ∈ s.toList, keepChar c = true) :
    normalize_plate (.str s) = s := by
  show String.mk (((pyStrip s.toList).map pyToUpper).filter keepChar) = s
  rw [pyStrip_eq_self h, map_toUpper_eq_self h, List.filter_eq_self.mpr h]
  rfl

/-- C8: the plate normalizer is total on arbitrary scalars; a missing
value maps to `""`, any other value to the uppercase of its textual
representation with every character outside `[A-Z0-9]` removed (the
interior `strip` is redundant); it is idempotent, and
`" ab-12 "` normalizes to `"AB12"`. -/
theorem C8_plate_normalizer :
    normalize_plate .na = "" ∧
    (∀ v : Value, v.isNA = false →
      normalize_plate v =
        String.mk ((v.toText.toList.map pyToUpper).filter keepChar)) ∧
    (∀ x : Value,
      normalize_plate (.str (normalize_plate x)) = normalize_plate x) ∧
    normalize_plate (.str " ab-12 ") = "AB12" := by
  refine ⟨rfl, ?_, ?_, by decide⟩
  · intro v hv
    cases v with
    | na => simp [Value.isNA] at hv
    | str s => exact congrArg String.mk (norm_strip_aux _)
    | num n => exact congrArg String.mk (norm_strip_aux _)
  · intro x
    exact normalize_normalized (normalize_plate x) (normalize_plate_chars x)

/-- Witness for C8: the textual-representation clause evaluated at a raw
plate with spaces, lowercase and punctuation. -/
theorem C8_plate_normalizer_witness :
    normalize_plate (Value.str " ab-12 ") =
      String.mk ((((Value.str " ab-12 ").toText.toList).map pyToUpper).filter
        keepChar) :=
  C8_plate_normalizer.2.1 (Value.str " ab-12 ") rfl

end CtrlInsp

namespace CtrlInsp

/-! ### The latest-record selector: ordered-insert and `find?` facts -/

/-- Inserting a row that fails the predicate preserves the `find?`
result. -/
theorem find?_orderedInsert_of_neg {p : InspRow → Bool} {a r : InspRow}
    (ha : p a = false) :
    ∀ {s : List InspRow}, s.find? p = some r →
      (s.orderedInsert lexLe a).find? p = some r := by
  intro s
  induction s with
  | nil => intro h; simp at h
  | cons b bs ih =>
    intro h
    by_cases hb : p b = true
    · have hrb : b = r := by
        rw [List.find?_cons_of_pos _ hb] at h
        exact Option.some.inj h
      rw [List.orderedInsert]
      split_ifs with hle
      · rw [List.find?_cons_of_neg _ (by simp [ha]),
          List.find?_cons_of_pos _ hb, hrb]
      · rw [List.find?_cons_of_pos _ hb, hrb]
    · have h' : bs.find? p = some r := by
        rwa [List.find?_cons_of_neg _ hb] at h
      rw [List.orderedInsert]
      split_ifs with hle
      · rw [List.find?_cons_of_neg _ (by simp [ha]),
          List.find?_cons_of_neg _ hb]
        exact h'
      · rw [List.find?_cons_of_neg _ hb]
        exact ih h'

/-- Inserting a `k`-row that sorts no later than every `k`-row of the
list makes it the first `k`-row found. -/
theorem find?_orderedInsert_of_le {k : String} {a : InspRow}
    (hk : a.plate_norm = k) :
    ∀ {s : List InspRow}, (∀ x ∈ s, x.plate_norm = k → lexLe a x) →
      (s.orderedInsert lexLe a).find? (pk k) = some a := by
  intro s
  induction s with
  | nil =>
    intro _
    rw [List.orderedInsert, List.find?_cons_of_pos _ (by simp [pk, hk])]
  | cons b bs ih =>
    intro hall
    rw [List.orderedInsert]
    split_ifs with hle
    · rw [List.find?_cons_of_pos _ (by simp [pk, hk])]
    · have hb : ¬ pk k b := by
        intro hbk
        exact hle (hall b (List.mem_cons_self b bs) (by simpa [pk] using hbk))
      rw [List.find?_cons_of_neg _ hb]
      exact ih (fun x hx hxk => hall x (List.mem_cons_of_mem b hx) hxk)

/-- Code-point comparison of character lists is transitive. -/
theorem charListLt_trans : ∀ x y z : List Char, charListLt x y = true →
    charListLt y z = true → charListLt x z = true := by
  intro x
  induction x with
  | nil =>
    intro y z h1 h2
    cases z with
    | nil => cases y <;> simp [charListLt] at h2
    | cons zh zt => simp [charListLt]
  | cons xh xt ih =>
    intro y z h1 h2
    cases y with
    | nil => simp [charListLt] at h1
    | cons yh yt =>
      cases z with
      | nil => simp [charListLt] at h2
      | cons zh zt =>
        simp only [charListLt] at h1 h2 ⊢
        split_ifs at h1 h2 ⊢ <;>
          first
            | rfl
            | exact Bool.noConfusion h1
            | exact Bool.noConfusion h2
            | exact ih yt zt h1 h2
            | (exfalso; omega)

/-- The string order is transitive. -/
theorem strLt_trans {s t u : String} (h1 : strLt s t) (h2 : strLt t u) :
    strLt s u :=
  charListLt_trans s.toList t.toList u.toList h1 h2

/-- The string order is irreflexive. -/
theorem strLt_irrefl (s : String) : ¬ strLt s s := by
  have h : ∀ x : List Char, charListLt x x = false := by
    intro x
    induction x with
    | nil => rfl
    | cons c t ih => simp [charListLt, ih]
  intro hs
  rw [strLt, h] at hs
  exact Bool.noConfusion hs

/-- Inserting a `k`-row that sorts strictly after `r` into a sorted list
whose first `k`-row is `r` keeps `r` first. -/
theorem find?_orderedInsert_of_gt {k : String} {a r : InspRow}
    (hak : a.plate_norm = k) (hrk : r.plate_norm = k) (hna : ¬ lexLe a r) :
    ∀ {s : List InspRow}, List.Sorted lexLe s → s.find? (pk k) = some r →
      (s.orderedInsert lexLe a).find? (pk k) = some r := by
  intro s
  induction s with
  | nil => intro _ h; simp at h
  | cons b bs ih =>
    intro hs h
    by_cases hb : pk k b = true
    · have hrb : b = r := by
        rw [List.find?_cons_of_pos _ hb] at h
        exact Option.some.inj h
      rw [hrb] at hb
      rw [hrb]
      show (if lexLe a r then a :: r :: bs
        else r :: (bs.orderedInsert lexLe a)).find? (pk k) = some r
      rw [if_neg hna, List.find?_cons_of_pos _ hb]
    · have h' : bs.find? (pk k) = some r := by
        rwa [List.find?_cons_of_neg _ hb] at h
      rw [List.orderedInsert]
      split_ifs with hle
      · exfalso
        have hrmem : r ∈ bs := List.mem_of_find?_eq_some h'
        have hbr : lexLe b r := List.rel_of_sorted_cons hs r hrmem
        have hbk : b.plate_norm ≠ k := by simpa [pk] using hb
        have hblt : strLt b.plate_norm k := by
          rcases hbr with h1 | ⟨h1, _⟩
          · rwa [hrk] at h1
          · exact absurd (h1.trans hrk) hbk
        rcases hle with h2 | ⟨h2, _⟩
        · rw [hak] at h2
          exact absurd (strLt_trans h2 hblt) (strLt_irrefl k)
        · rw [hak] at h2
          exact hbk h2.symm
      · rw [List.find?_cons_of_neg _ hb]
        exact ih hs.of_cons h'

/-- The first `k`-row of the stable sort of `l1 ++ r :: l2` is `r`
itself, provided every `k`-row is dated no later than `r`'s date `d` and
every `k`-row of the prefix `l1` is either `r`-valued or dated strictly
before `d`. -/
theorem find?_insertionSort_eq {k : String} {d : Int} {r : InspRow}
    (hrk : r.plate_norm = k) (hrd : r.fecha_dt = some d) :
    ∀ (l1 l2 : List InspRow),
      (∀ x ∈ l1 ++ r :: l2, x.plate_norm = k →
        dateDescLe (some d) x.fecha_dt) →
      (∀ x ∈ l1, x.plate_norm = k → x = r ∨ x.fecha_dt ≠ some d) →
      ((l1 ++ r :: l2).insertionSort lexLe).find? (pk k) = some r := by
  intro l1
  induction l1 with
  | nil =>
    intro l2 hmax _
    simp only [List.nil_append, List.insertionSort]
    apply find?_orderedInsert_of_le hrk
    intro x hx hxk
    have hx' : x ∈ l2 := (List.mem_insertionSort lexLe).mp hx
    have hdx := hmax x (by simp [hx']) hxk
    exact Or.inr ⟨hrk.trans hxk.symm, by rw [hrd]; exact hdx⟩
  | cons a l1' ih =>
    intro l2 hmax hpre
    have hmax' : ∀ x ∈ l1' ++ r :: l2, x.plate_norm = k →
        dateDescLe (some d) x.fecha_dt := fun x hx hxk =>
      hmax x (by rw [List.cons_append]; exact List.mem_cons_of_mem a hx) hxk
    have hpre' : ∀ x ∈ l1', x.plate_norm = k → x = r ∨ x.fecha_dt ≠ some d :=
      fun x hx hxk => hpre x (List.mem_cons_of_mem a hx) hxk
    have hfind := ih l2 hmax' hpre'
    rw [List.cons_append]
    simp only [List.insertionSort]
    by_cases hak : pk k a = true
    · have hak' : a.plate_norm = k := by simpa [pk] using hak
      rcases hpre a (List.mem_cons_self a l1') hak' with hae | hand
      · rw [hae]
        apply find?_orderedInsert_of_le hrk
        intro x hx hxk
        have hx' : x ∈ l1' ++ r :: l2 := (List.mem_insertionSort lexLe).mp hx
        have hdx := hmax' x hx' hxk
        exact Or.inr ⟨hrk.trans hxk.symm, by rw [hrd]; exact hdx⟩
      · have had : dateDescLe (some d) a.fecha_dt :=
          hmax a (by rw [List.cons_append]; exact List.mem_cons_self a _) hak'
        have hna : ¬ lexLe a r := by
          rintro (h1 | ⟨h1, h2⟩)
          · rw [hak', hrk] at h1
            exact strLt_irrefl k h1
          · rw [hrd] at h2
            cases hfa : a.fecha_dt with
            | none =>
              rw [hfa] at h2
              exact h2
            | some fa =>
              rw [hfa] at h2 had
              exact hand (by
                rw [hfa]
                exact congrArg some
                  (le_antisymm (show fa ≤ d from had) (show d ≤ fa from h2)))
        exact find?_orderedInsert_of_gt hak' hrk hna
          (List.sorted_insertionSort lexLe _) hfind
    · have hak0 : pk k a = false := by
        rw [Bool.eq_false_iff]
        exact hak
      exact find?_orderedInsert_of_neg hak0 hfind

/-- `find?` is the head of `filter`. -/
theorem find?_eq_filter_head (p : InspRow → Bool) :
    ∀ l : List InspRow, l.find? p = (l.filter p).head? := by
  intro l
  induction l with
  | nil => rfl
  | cons a t ih =>
    by_cases ha : p a = true
    · rw [List.find?_cons_of_pos _ ha, List.filter_cons_of_pos ha]
      rfl
    · rw [List.find?_cons_of_neg _ ha, List.filter_cons_of_neg ha, ih]

/-- The date aggregation keeps a non-`NaT` head. -/
theorem firstDate_cons_of_isSome {o : Option Int} {os : List (Option Int)}
    (h : o.isSome = true) : firstDate (o :: os) = o := by
  unfold firstDate
  rw [List.find?_cons_of_pos _ h]
  rfl

/-- The per-column aggregation keeps a non-null head. -/
theorem firstNonNA_cons_of_nonnull {v : Value} {vs : List Value}
    (h : v.isNA = false) : firstNonNA (v :: vs) = v := by
  simp [firstNonNA, List.find?_cons, h]

/-- A group whose first row has every aggregated field non-null
aggregates to exactly that row (`GroupBy.first()` never looks past a
non-null head). -/
theorem aggFirst_cons_of_nonnull {k : String} {r : InspRow}
    {t : List InspRow}
    (hk : r.plate_norm = k) (hd : r.fecha_dt.isSome = true)
    (he : r.cumplExt.isNA = false) (hi : r.cumplInt.isNA = false)
    (hc : r.cumplCond.isNA = false) :
    aggFirst k (r :: t) = r := by
  have h1 : firstDate ((r :: t).map (·.fecha_dt)) = r.fecha_dt := by
    rw [List.map_cons]
    exact firstDate_cons_of_isSome hd
  have h2 : firstNonNA ((r :: t).map (·.cumplExt)) = r.cumplExt := by
    rw [List.map_cons]
    exact firstNonNA_cons_of_nonnull he
  have h3 : firstNonNA ((r :: t).map (·.cumplInt)) = r.cumplInt := by
    rw [List.map_cons]
    exact firstNonNA_cons_of_nonnull hi
  have h4 : firstNonNA ((r :: t).map (·.cumplCond)) = r.cumplCond := by
    rw [List.map_cons]
    exact firstNonNA_cons_of_nonnull hc
  unfold aggFirst
  rw [h1, h2, h3, h4, ← hk]

/-- If the first `k`-row of the sorted filtered table is `r` and `r`'s
aggregated fields are all non-null, then `r` is in `df_last` and is its
only row of key `k`. -/
theorem df_last_of_find? {rows : List InspRow} {k : String} {r : InspRow}
    (hrk : r.plate_norm = k) (hd : r.fecha_dt.isSome = true)
    (he : r.cumplExt.isNA = false) (hi : r.cumplInt.isNA = false)
    (hc : r.cumplCond.isNA = false)
    (hfind : (sortedGood rows).find? (pk k) = some r) :
    r ∈ df_last rows ∧ ∀ x ∈ df_last rows, x.plate_norm = k → x = r := by
  have hagg : aggFirst k ((sortedGood rows).filter (pk k)) = r := by
    have hh := find?_eq_filter_head (pk k) (sortedGood rows)
    rw [hfind] at hh
    cases hf : (sortedGood rows).filter (pk k) with
    | nil =>
      rw [hf] at hh
      simp at hh
    | cons b t =>
      rw [hf] at hh
      have hbr : b = r := by
        have : some b = some r := hh.symm
        exact Option.some.inj this
      subst hbr
      exact aggFirst_cons_of_nonnull hrk hd he hi hc
  have hkmem : k ∈ ((sortedGood rows).map (·.plate_norm)).dedup := by
    rw [List.mem_dedup, ← hrk]
    exact List.mem_map_of_mem _ (List.mem_of_find?_eq_some hfind)
  constructor
  · have hm : aggFirst k ((sortedGood rows).filter (pk k)) ∈ df_last rows :=
      List.mem_map_of_mem _ hkmem
    rwa [hagg] at hm
  · intro x hx hxk
    obtain ⟨k', hk', hxe⟩ := List.mem_map.mp hx
    have hplate : x.plate_norm = k' := by rw [← hxe]; rfl
    have hk'k : k' = k := hplate.symm.trans hxk
    rw [← hxe, hk'k]
    exact hagg

end CtrlInsp

namespace CtrlInsp

/-- Build the keep-predicate of lines 355-356. -/
theorem goodRow_intro {r : InspRow} (h1 : r.plate_norm ≠ "")
    (h2 : r.fecha_dt.isSome = true) : goodRow r = true := by
  simp [goodRow, h1, h2]

/-- Unpack the keep-predicate of lines 355-356. -/
theorem goodRow_elim {r : InspRow} (h : goodRow r = true) :
    r.plate_norm ≠ "" ∧ r.fecha_dt ≠ none := by
  simp only [goodRow, Bool.and_eq_true, decide_eq_true_eq] at h
  exact ⟨h.1, Option.isSome_iff_ne_none.mp h.2⟩

/-- The keep-filter around a distinguished kept row. -/
theorem filter_good_split {rows1 rows2 : List InspRow} {r : InspRow}
    (hr : goodRow r = true) :
    (rows1 ++ r :: rows2).filter goodRow =
      rows1.filter goodRow ++ r :: rows2.filter goodRow := by
  rw [List.filter_append, List.filter_cons_of_pos hr]

/-- `df_last` emits pairwise-distinct keys: at most one latest record
per plate. -/
theorem df_last_keys_nodup (rows : List InspRow) :
    ((df_last rows).map (·.plate_norm)).Nodup := by
  unfold df_last
  rw [List.map_map]
  have hcomp : ((fun x : InspRow => x.plate_norm) ∘
      fun k => aggFirst k ((sortedGood rows).filter (pk k))) =
        fun k : String => k := rfl
  rw [hcomp, List.map_id']
  exact List.nodup_dedup _

/-- `df_last` has a row of key `k` exactly when some input row carries
key `k` non-empty together with a resolved date. -/
theorem df_last_key_iff (rows : List InspRow) (k : String) :
    (∃ x ∈ df_last rows, x.plate_norm = k) ↔
      ∃ r ∈ rows, r.plate_norm = k ∧ k ≠ "" ∧ r.fecha_dt ≠ none := by
  constructor
  · rintro ⟨x, hx, hxk⟩
    obtain ⟨k', hk', rfl⟩ := List.mem_map.mp hx
    have hkk : k' = k := hxk
    subst hkk
    rw [List.mem_dedup] at hk'
    obtain ⟨rr, hrr, hrrk⟩ := List.mem_map.mp hk'
    have hrg : rr ∈ rows.filter goodRow := by
      have hs : rr ∈ sortedGood rows := hrr
      unfold sortedGood at hs
      exact (List.mem_insertionSort lexLe).mp hs
    have hgood := goodRow_elim (List.of_mem_filter hrg)
    exact ⟨rr, List.mem_of_mem_filter hrg, hrrk, hrrk ▸ hgood.1, hgood.2⟩
  · rintro ⟨rr, hrr, hrrk, hke, hfd⟩
    have hgood : goodRow rr = true :=
      goodRow_intro (by rw [hrrk]; exact hke)
        (Option.isSome_iff_ne_none.mpr hfd)
    have hmem : rr ∈ sortedGood rows := by
      unfold sortedGood
      rw [List.mem_insertionSort]
      exact List.mem_filter.mpr ⟨hrr, hgood⟩
    have hkmem : k ∈ ((sortedGood rows).map (·.plate_norm)).dedup := by
      rw [List.mem_dedup, ← hrrk]
      exact List.mem_map_of_mem _ hmem
    exact ⟨aggFirst k ((sortedGood rows).filter (pk k)),
      List.mem_map_of_mem _ hkmem, rfl⟩

/-- A group containing a row with a resolved date aggregates to a
non-`NaT` date. -/
theorem aggFirst_fecha_ne_none {k : String} {g : List InspRow} {y : InspRow}
    (hy : y ∈ g) (hys : y.fecha_dt.isSome = true) :
    (aggFirst k g).fecha_dt ≠ none := by
  have hf : ((g.map (·.fecha_dt)).find? Option.isSome).isSome = true :=
    List.find?_isSome.mpr ⟨y.fecha_dt, List.mem_map_of_mem _ hy, hys⟩
  show ((g.map (·.fecha_dt)).find? Option.isSome).getD none ≠ none
  cases hv : (g.map (·.fecha_dt)).find? Option.isSome with
  | none => rw [hv] at hf; exact Bool.noConfusion hf
  | some o =>
    have ho : o.isSome = true := List.find?_some hv
    show o ≠ none
    exact Option.isSome_iff_ne_none.mp ho

/-- Every `df_last` row has a non-empty key and a resolved date: keys
whose rows all have unresolvable dates are entirely absent, never
present null-dated. -/
theorem df_last_rows_good (rows : List InspRow) :
    ∀ x ∈ df_last rows, x.plate_norm ≠ "" ∧ x.fecha_dt ≠ none := by
  intro x hx
  obtain ⟨k, hk, rfl⟩ := List.mem_map.mp hx
  rw [List.mem_dedup] at hk
  obtain ⟨rr, hrr, hrrk⟩ := List.mem_map.mp hk
  have hrg : rr ∈ rows.filter goodRow := by
    have hs : rr ∈ sortedGood rows := hrr
    unfold sortedGood at hs
    exact (List.mem_insertionSort lexLe).mp hs
  have hgood := List.of_mem_filter hrg
  have hgood' := goodRow_elim hgood
  constructor
  · show k ≠ ""
    exact hrrk ▸ hgood'.1
  · have hmemf : rr ∈ (sortedGood rows).filter (pk k) :=
      List.mem_filter.mpr ⟨hrr, by simp [pk, hrrk]⟩
    have hsome : rr.fecha_dt.isSome = true := by
      simp only [goodRow, Bool.and_eq_true] at hgood
      exact hgood.2
    exact aggFirst_fecha_ne_none hmemf hsome

end CtrlInsp

namespace CtrlInsp

/-- Excluded rows never influence the selector: `df_last` only ever sees
the kept rows. -/
theorem df_last_filter_invariant (rows : List InspRow) :
    df_last (rows.filter goodRow) = df_last rows := by
  unfold df_last sortedGood
  rw [List.filter_filter]
  have h : (fun a => goodRow a && goodRow a) = goodRow := by
    funext a
    exact Bool.and_self (goodRow a)
  rw [h]

/-- Core retention fact shared by the latest-selector claims: if `r`'s
date `d` is maximal among its key's rows, no `k`-row before `r` in input
order ties with `d` (other than `r`-valued rows), and `r`'s aggregated
fields are all non-null, then `df_last` retains `r` itself as the unique
row of key `k`. -/
theorem df_last_retains {rows1 rows2 : List InspRow} {r : InspRow}
    {k : String} {d : Int}
    (hrk : r.plate_norm = k) (hke : k ≠ "") (hrd : r.fecha_dt = some d)
    (he : r.cumplExt.isNA = false) (hi : r.cumplInt.isNA = false)
    (hc : r.cumplCond.isNA = false)
    (hmax : ∀ x ∈ rows1 ++ r :: rows2, x.plate_norm = k →
      dateDescLe (some d) x.fecha_dt)
    (hpre : ∀ x ∈ rows1, x.plate_norm = k → x = r ∨ x.fecha_dt ≠ some d) :
    r ∈ df_last (rows1 ++ r :: rows2) ∧
      ∀ x ∈ df_last (rows1 ++ r :: rows2), x.plate_norm = k → x = r := by
  have hgood : goodRow r = true :=
    goodRow_intro (by rw [hrk]; exact hke) (by rw [hrd]; rfl)
  have hsub : ∀ x, x ∈ rows1.filter goodRow ++ r :: rows2.filter goodRow →
      x ∈ rows1 ++ r :: rows2 := by
    intro x hx
    rcases List.mem_append.mp hx with h | h
    · exact List.mem_append.mpr (Or.inl (List.mem_of_mem_filter h))
    · rcases List.mem_cons.mp h with h | h
      · rw [h]
        exact List.mem_append.mpr (Or.inr (List.mem_cons_self r rows2))
      · exact List.mem_append.mpr
          (Or.inr (List.mem_cons_of_mem r (List.mem_of_mem_filter h)))
  have hfind : (sortedGood (rows1 ++ r :: rows2)).find? (pk k) = some r := by
    unfold sortedGood
    rw [filter_good_split hgood]
    apply find?_insertionSort_eq hrk hrd
    · intro x hx hxk
      exact hmax x (hsub x hx) hxk
    · intro x hx hxk
      exact hpre x (List.mem_of_mem_filter hx) hxk
  exact df_last_of_find? hrk (by rw [hrd]; rfl) he hi hc hfind

/-- C1 counterexample: `groupby(...).first()` takes the first
**non-null** value per column, so with key "AB12" and a null exterior
score on the newer row (date 10) the selector fills that field from the
older row (date 5): the emitted row mixes both rows and equals neither
input row — refuting "every output field comes from the single
maximum-date row". -/
theorem C1_latest_selector_cex :
    df_last
      [⟨"AB12", some 10, Value.na, Value.num 80, Value.num 90⟩,
       ⟨"AB12", some 5, Value.num 70, Value.num 81, Value.num 91⟩] =
      [⟨"AB12", some 10, Value.num 70, Value.num 80, Value.num 90⟩] ∧
    ∀ x ∈ df_last
      [⟨"AB12", some 10, Value.na, Value.num 80, Value.num 90⟩,
       ⟨"AB12", some 5, Value.num 70, Value.num 81, Value.num 91⟩],
      x ≠ (⟨"AB12", some 10, Value.na, Value.num 80, Value.num 90⟩ : InspRow) ∧
      x ≠ (⟨"AB12", some 5, Value.num 70, Value.num 81, Value.num 91⟩ :
        InspRow) :=
  ⟨by decide, by decide⟩

/-- C1 (amended): for a key whose maximum resolved date is attained by
the single row `r` — every other row of the key strictly older — the
selector returns exactly `r` **provided `r`'s three raw compliance
fields are non-null**; a field that is null in `r` is instead filled
with the most recent non-null value of the key (pandas
`GroupBy.first()` skips nulls per column). -/
theorem C1_latest_selector (rows1 rows2 : List InspRow) (r : InspRow)
    (k : String) (d : Int)
    (hrk : r.plate_norm = k) (hke : k ≠ "") (hrd : r.fecha_dt = some d)
    (he : r.cumplExt.isNA = false) (hi : r.cumplInt.isNA = false)
    (hc : r.cumplCond.isNA = false)
    (hmax : ∀ x ∈ rows1 ++ r :: rows2, x.plate_norm = k →
      dateDescLe (some d) x.fecha_dt)
    (hstrict : ∀ x ∈ rows1 ++ r :: rows2, x.plate_norm = k → x ≠ r →
      x.fecha_dt ≠ some d) :
    r ∈ df_last (rows1 ++ r :: rows2) ∧
      ∀ x ∈ df_last (rows1 ++ r :: rows2), x.plate_norm = k → x = r :=
  df_last_retains hrk hke hrd he hi hc hmax
    (fun x hx hxk => by
      by_cases hxr : x = r
      · exact Or.inl hxr
      · exact Or.inr
          (hstrict x (List.mem_append.mpr (Or.inl hx)) hxk hxr))

/-- Witness for C1: key "AB12", unique max date 10, all fields non-null;
the selector retains that row. -/
theorem C1_latest_selector_witness :
    (⟨"AB12", some 10, Value.num 100, Value.num 90, Value.num 80⟩ :
        InspRow) ∈
      df_last [⟨"AB12", some 10, Value.num 100, Value.num 90, Value.num 80⟩,
               ⟨"AB12", some 5, Value.num 1, Value.num 2, Value.num 3⟩] :=
  (C1_latest_selector []
    [⟨"AB12", some 5, Value.num 1, Value.num 2, Value.num 3⟩]
    ⟨"AB12", some 10, Value.num 100, Value.num 90, Value.num 80⟩ "AB12" 10
    rfl (by decide) rfl rfl rfl rfl (by decide) (by decide)).1

/-- C6: the latest-record selector emits at most one row per key; a key
appears exactly when some input row carries it non-empty with a resolved
date; every emitted row has a non-empty key and a non-null date (keys
with only unresolvable dates are entirely absent); and rows with an
empty key or a null date never influence the result (filtering them away
first changes nothing). -/
theorem C6_latest_selector :
    ∀ (rows : List InspRow) (k : String),
      ((df_last rows).map (·.plate_norm)).Nodup ∧
      ((∃ x ∈ df_last rows, x.plate_norm = k) ↔
        ∃ r ∈ rows, r.plate_norm = k ∧ k ≠ "" ∧ r.fecha_dt ≠ none) ∧
      (∀ x ∈ df_last rows, x.plate_norm ≠ "" ∧ x.fecha_dt ≠ none) ∧
      df_last (rows.filter goodRow) = df_last rows :=
  fun rows k => ⟨df_last_keys_nodup rows, df_last_key_iff rows k,
    df_last_rows_good rows, df_last_filter_invariant rows⟩

/-- Witness for C6: a single dated row of key "AB12" produces an output
row of that key. -/
theorem C6_latest_selector_witness :
    ∃ x ∈ df_last [(⟨"AB12", some 3, Value.na, Value.na, Value.na⟩ :
      InspRow)], x.plate_norm = "AB12" :=
  (C6_latest_selector [⟨"AB12", some 3, Value.na, Value.na, Value.na⟩]
      "AB12").2.1.mpr
    ⟨⟨"AB12", some 3, Value.na, Value.na, Value.na⟩, by decide, rfl,
      by decide, by decide⟩

/-- C7 counterexample: two rows of key "AB12" tie on the maximum date
10; the first-encountered row has a null exterior score, and
`GroupBy.first()` fills that column from the second tied row — the
emitted row equals neither input row, refuting "the first-encountered
row among those tied for the maximum date wins" as stated. -/
theorem C7_latest_selector_tiebreak_cex :
    df_last
      [⟨"AB12", some 10, Value.na, Value.num 80, Value.num 90⟩,
       ⟨"AB12", some 10, Value.num 50, Value.num 81, Value.num 91⟩] =
      [⟨"AB12", some 10, Value.num 50, Value.num 80, Value.num 90⟩] ∧
    ∀ x ∈ df_last
      [⟨"AB12", some 10, Value.na, Value.num 80, Value.num 90⟩,
       ⟨"AB12", some 10, Value.num 50, Value.num 81, Value.num 91⟩],
      x ≠ (⟨"AB12", some 10, Value.na, Value.num 80, Value.num 90⟩ :
        InspRow) :=
  ⟨by decide, by decide⟩

/-- C7 (amended): when the maximum date of a key is attained by several
rows, the selector retains the earliest of the tied rows in original
input order (stable-sort tie-breaking) **provided that row's three raw
compliance fields are non-null**; a field that is null there is filled
from the next row of the key in the stable descending-date order. -/
theorem C7_latest_selector_tiebreak (rows1 rows2 : List InspRow)
    (r : InspRow) (k : String) (d : Int)
    (hrk : r.plate_norm = k) (hke : k ≠ "") (hrd : r.fecha_dt = some d)
    (he : r.cumplExt.isNA = false) (hi : r.cumplInt.isNA = false)
    (hc : r.cumplCond.isNA = false)
    (hmax : ∀ x ∈ rows1 ++ r :: rows2, x.plate_norm = k →
      dateDescLe (some d) x.fecha_dt)
    (hfirst : ∀ x ∈ rows1, x.plate_norm = k → x.fecha_dt ≠ some d) :
    r ∈ df_last (rows1 ++ r :: rows2) ∧
      ∀ x ∈ df_last (rows1 ++ r :: rows2), x.plate_norm = k → x = r :=
  df_last_retains hrk hke hrd he hi hc hmax
    (fun x hx hxk => Or.inr (hfirst x hx hxk))

/-- Witness for C7: two rows tied on date 10; the first-encountered one
(all fields non-null) is retained. -/
theorem C7_latest_selector_tiebreak_witness :
    (⟨"AB12", some 10, Value.num 100, Value.num 90, Value.num 80⟩ :
        InspRow) ∈
      df_last [⟨"AB12", some 10, Value.num 100, Value.num 90, Value.num 80⟩,
               ⟨"AB12", some 10, Value.num 1, Value.num 2, Value.num 3⟩] :=
  (C7_latest_selector_tiebreak []
    [⟨"AB12", some 10, Value.num 1, Value.num 2, Value.num 3⟩]
    ⟨"AB12", some 10, Value.num 100, Value.num 90, Value.num 80⟩ "AB12" 10
    rfl (by decide) rfl rfl rfl rfl (by decide) (by decide)).1

end CtrlInsp
